import Mathlib

/-
Shallow embedding of src/trade_book/src/main.rs.

The Rust core is an in-memory two-sided order book:
  - enum OrderType { Buy, Sell }
  - struct Order { id: u32, order_type: OrderType, amount: f64, price: f64 }
  - struct OrderBook { buy_orders: Vec<Order>, sell_orders: Vec<Order>, next_id: u32 }
with operations new, add_order, total_orders, get_orders_by_type,
find_order_by_id, get_total_value_by_type.

Modelling choices:
  - Vec<Order> becomes List Order; Vec::push appends at the end.
  - f64 becomes Float; the registry only stores and multiplies floats, it
    never branches on them, so all field equalities below are equalities of
    the stored Float values.
  - next_id is a u32.  The statement `self.next_id += 1` is checked u32
    arithmetic: under the default (debug) build profile Rust panics when the
    increment would exceed u32::MAX = 4294967295.  Overflow matters here, so
    next_id is a Nat and add_order returns an Option: none models the
    overflow panic, some the normal return.  All other operations are
    infallible in the source and are embedded as total functions.
  - add_order's Rust return type is the unit type (the function returns no
    value); add_order_ret below records that return value explicitly.
-/

namespace TradeBook

inductive OrderType where
  | Buy : OrderType
  | Sell : OrderType
deriving DecidableEq

structure Order where
  id : Nat
  order_type : OrderType
  amount : Float
  price : Float

structure OrderBook where
  buy_orders : List Order
  sell_orders : List Order
  next_id : Nat

/-- Number of values of the Rust type u32: 2^32. -/
def U32_LIMIT : Nat := 4294967296

/-- Embedding of OrderBook::new: empty partitions, counter starts at 1. -/
def OrderBook.new : OrderBook :=
  ⟨[], [], 1⟩

/-- Embedding of OrderBook::add_order.  The order is built with id = next_id
and pushed onto the partition selected by order_type; then next_id is
incremented.  The increment is checked u32 arithmetic: none models the
overflow panic when next_id + 1 would exceed u32::MAX. -/
def OrderBook.add_order (b : OrderBook) (order_type : OrderType)
    (amount : Float) (price : Float) : Option OrderBook :=
  let order : Order := ⟨b.next_id, order_type, amount, price⟩
  let b1 : OrderBook :=
    match order_type with
    | OrderType.Buy => ⟨b.buy_orders ++ [order], b.sell_orders, b.next_id⟩
    | OrderType.Sell => ⟨b.buy_orders, b.sell_orders ++ [order], b.next_id⟩
  if b.next_id + 1 < U32_LIMIT then
    some ⟨b1.buy_orders, b1.sell_orders, b.next_id + 1⟩
  else
    none

/-- Return value of the Rust function add_order: its signature is
`fn add_order(&mut self, ...)` with no return type, so a successful call
returns the unit value. -/
def OrderBook.add_order_ret (_b : OrderBook) (_order_type : OrderType)
    (_amount : Float) (_price : Float) : Unit := ()

/-- Embedding of OrderBook::total_orders. -/
def OrderBook.total_orders (b : OrderBook) : Nat :=
  b.buy_orders.length + b.sell_orders.length

/-- Embedding of OrderBook::get_orders_by_type. -/
def OrderBook.get_orders_by_type (b : OrderBook) (order_type : OrderType) : List Order :=
  match order_type with
  | OrderType.Buy => b.buy_orders
  | OrderType.Sell => b.sell_orders

/-- Embedding of OrderBook::find_order_by_id: scan buy_orders first, then
sell_orders, first match wins, none when no record matches. -/
def OrderBook.find_order_by_id (b : OrderBook) (id : Nat) : Option Order :=
  match b.buy_orders.find? (fun o => o.id == id) with
  | some o => some o
  | none => b.sell_orders.find? (fun o => o.id == id)

/-- Embedding of OrderBook::get_total_value_by_type: map each order to
amount * price and sum.  Rust's Sum for f64 is a left fold starting
from 0.0, so the accumulation runs in submission order. -/
def OrderBook.get_total_value_by_type (b : OrderBook) (order_type : OrderType) : Float :=
  let orders := b.get_orders_by_type order_type
  (orders.map (fun o => o.amount * o.price)).foldl (fun a x => a + x) 0.0

/-- One submission request: the caller-supplied arguments of add_order. -/
structure Req where
  ty : OrderType
  amount : Float
  price : Float

/-- Order record that a submission with arguments r receives when the
counter stands at id (exactly the record add_order builds). -/
def mkOrder (id : Nat) (r : Req) : Order :=
  ⟨id, r.ty, r.amount, r.price⟩

/-- Run a list of submissions against a book; none as soon as one panics. -/
def runOpt : OrderBook → List Req → Option OrderBook
  | b, [] => some b
  | b, r :: rs =>
    match b.add_order r.ty r.amount r.price with
    | some b1 => runOpt b1 rs
    | none => none

/-- Run a list of submissions, also recording the identifier each
successful add_order assigns (the pre-state counter value). -/
def runIds : OrderBook → List Req → Option (OrderBook × List Nat)
  | b, [] => some (b, [])
  | b, r :: rs =>
    match b.add_order r.ty r.amount r.price with
    | some b1 => (runIds b1 rs).map (fun p => (p.1, b.next_id :: p.2))
    | none => none

/-- Orders a list of requests would create when the counter stands at
start: ids start, start+1, ... in submission order. -/
def mkOrders : Nat → List Req → List Order
  | _, [] => []
  | start, r :: rs => mkOrder start r :: mkOrders (start + 1) rs

/-- The list start, start+1, ..., start+n-1. -/
def idRange : Nat → Nat → List Nat
  | _, 0 => []
  | s, n + 1 => s :: idRange (s + 1) n

/-- Specification-side accumulator for the notional sum: walks the orders in
list order, adding amount * price of each onto the running total. -/
def sumNotionalGo : Float → List Order → Float
  | acc, [] => acc
  | acc, o :: rest => sumNotionalGo (acc + o.amount * o.price) rest

/-- Modelled from the spec: the sum over the orders of a side of
amount * price, accumulated in submission order, starting from 0.0. -/
def sumNotional (l : List Order) : Float :=
  sumNotionalGo 0.0 l

/-- Book produced by a successful add_order on b. -/
def addedBook (b : OrderBook) (ty : OrderType) (a p : Float) : OrderBook :=
  match ty with
  | OrderType.Buy => ⟨b.buy_orders ++ [mkOrder b.next_id ⟨ty, a, p⟩], b.sell_orders, b.next_id + 1⟩
  | OrderType.Sell => ⟨b.buy_orders, b.sell_orders ++ [mkOrder b.next_id ⟨ty, a, p⟩], b.next_id + 1⟩

/-- Bool predicate selecting a partition. -/
def hasType (ty : OrderType) (o : Order) : Bool :=
  o.order_type == ty

theorem add_order_def (b : OrderBook) (ty : OrderType) (a p : Float) :
    b.add_order ty a p =
      if b.next_id + 1 < U32_LIMIT then some (addedBook b ty a p) else none := by
  cases ty <;> rfl

theorem addedBook_next_id (b : OrderBook) (ty : OrderType) (a p : Float) :
    (addedBook b ty a p).next_id = b.next_id + 1 := by
  cases ty <;> rfl

theorem add_order_some {b b' : OrderBook} {ty : OrderType} {a p : Float}
    (h : b.add_order ty a p = some b') :
    b.next_id + 1 < U32_LIMIT ∧ b' = addedBook b ty a p := by
  rw [add_order_def] at h
  by_cases hlt : b.next_id + 1 < U32_LIMIT
  · rw [if_pos hlt] at h
    exact ⟨hlt, (Option.some.injEq _ _ ▸ h).symm⟩
  · rw [if_neg hlt] at h
    cases h

theorem add_order_overflow {b : OrderBook} {ty : OrderType} {a p : Float}
    (h : ¬ b.next_id + 1 < U32_LIMIT) :
    b.add_order ty a p = none := by
  rw [add_order_def, if_neg h]

theorem add_order_isSome {b : OrderBook} {ty : OrderType} {a p : Float}
    (h : b.next_id + 1 < U32_LIMIT) :
    (b.add_order ty a p).isSome = true := by
  rw [add_order_def, if_pos h]
  rfl

theorem mkOrders_length : ∀ (rs : List Req) (s : Nat), (mkOrders s rs).length = rs.length
  | [], _ => rfl
  | _ :: rs, s => by simp [mkOrders, mkOrders_length rs (s + 1)]

theorem mkOrders_id_bounds : ∀ (rs : List Req) (s : Nat),
    ∀ o ∈ mkOrders s rs, s ≤ o.id ∧ o.id < s + rs.length := by
  intro rs
  induction rs with
  | nil => intro s o ho; cases ho
  | cons r rs ih =>
    intro s o ho
    rcases List.mem_cons.mp ho with h | h
    · subst h
      exact ⟨Nat.le_refl _, by simp [mkOrder]⟩
    · have hb := ih (s + 1) o h
      have h1 := hb.1
      have h2 := hb.2
      simp only [List.length_cons]
      omega

theorem mkOrders_mem_of_get : ∀ (rs : List Req) (s : Nat) (i : Fin rs.length),
    mkOrder (s + i.1) (rs.get i) ∈ mkOrders s rs := by
  intro rs
  induction rs with
  | nil => intro s i; exact absurd i.2 (by simp)
  | cons r rs ih =>
    intro s i
    rcases i with ⟨iv, hlt⟩
    cases iv with
    | zero => simp [mkOrders, List.get]
    | succ j =>
      have hmem := ih (s + 1) ⟨j, Nat.lt_of_succ_lt_succ hlt⟩
      have harith : s + (j + 1) = s + 1 + j := by omega
      rw [List.get]
      exact List.mem_cons_of_mem _ (by simpa [harith] using hmem)

theorem mkOrders_id_inj : ∀ (rs : List Req) (s : Nat) (o₁ o₂ : Order),
    o₁ ∈ mkOrders s rs → o₂ ∈ mkOrders s rs → o₁.id = o₂.id → o₁ = o₂ := by
  intro rs
  induction rs with
  | nil => intro s o₁ o₂ h₁; cases h₁
  | cons r rs ih =>
    intro s o₁ o₂ h₁ h₂ hid
    rcases List.mem_cons.mp h₁ with h₁ | h₁ <;> rcases List.mem_cons.mp h₂ with h₂ | h₂
    · subst h₁; subst h₂; rfl
    · subst h₁
      have := (mkOrders_id_bounds rs (s + 1) o₂ h₂).1
      exact absurd hid (by simp [mkOrder]; omega)
    · subst h₂
      have := (mkOrders_id_bounds rs (s + 1) o₁ h₁).1
      exact absurd hid (by simp [mkOrder]; omega)
    · exact ih (s + 1) o₁ o₂ h₁ h₂ hid

theorem find?_eq_some_of_unique {α : Type} {p : α → Bool} : ∀ {l : List α} {a : α},
    a ∈ l → p a = true → (∀ x ∈ l, p x = true → x = a) → l.find? p = some a := by
  intro l
  induction l with
  | nil => intro a h; cases h
  | cons x xs ih =>
    intro a hmem hpa huniq
    by_cases hx : p x = true
    · have hxa : x = a := huniq x (List.mem_cons_self _ _) hx
      subst hxa
      simp [List.find?_cons_of_pos _ hx]
    · have hx' : ¬ p x = true := hx
      have hxa : a ∈ xs := by
        rcases List.mem_cons.mp hmem with h | h
        · subst h; exact absurd hpa hx'
        · exact h
      rw [List.find?_cons_of_neg _ (by simpa using hx')]
      exact ih hxa hpa (fun y hy hpy => huniq y (List.mem_cons_of_mem _ hy) hpy)

theorem find?_eq_none_of_all {α : Type} {p : α → Bool} {l : List α}
    (h : ∀ x ∈ l, ¬ p x = true) : l.find? p = none :=
  List.find?_eq_none.mpr h

theorem runOpt_some_eq (rs : List Req) : ∀ (b b' : OrderBook), runOpt b rs = some b' →
    b'.buy_orders = b.buy_orders ++ (mkOrders b.next_id rs).filter (hasType OrderType.Buy)
    ∧ b'.sell_orders = b.sell_orders ++ (mkOrders b.next_id rs).filter (hasType OrderType.Sell)
    ∧ b'.next_id = b.next_id + rs.length := by
  induction rs with
  | nil =>
    intro b b' h
    simp only [runOpt, Option.some.injEq] at h
    subst h
    simp [mkOrders]
  | cons r rs ih =>
    intro b b' h
    simp only [runOpt] at h
    rcases hadd : b.add_order r.ty r.amount r.price with _ | b1
    · rw [hadd] at h; cases h
    · rw [hadd] at h
      obtain ⟨hlt, hb1⟩ := add_order_some hadd
      obtain ⟨ihb, ihs, ihn⟩ := ih b1 b' h
      subst hb1
      cases hty : r.ty
      · refine ⟨?_, ?_, ?_⟩
        · rw [ihb]
          simp only [addedBook, hty, mkOrders, List.filter_cons]
          have hpt : hasType OrderType.Buy (mkOrder b.next_id r) = true := by
            simp [hasType, mkOrder, hty]
          rw [if_pos hpt, ← hty]
          simp [List.append_assoc]
        · rw [ihs]
          simp only [addedBook, hty, mkOrders, List.filter_cons]
          have hpt : ¬ hasType OrderType.Sell (mkOrder b.next_id r) = true := by
            simp [hasType, mkOrder, hty]
          rw [if_neg hpt]
        · rw [ihn, addedBook_next_id]
          simp only [List.length_cons]
          omega
      · refine ⟨?_, ?_, ?_⟩
        · rw [ihb]
          simp only [addedBook, hty, mkOrders, List.filter_cons]
          have hpt : ¬ hasType OrderType.Buy (mkOrder b.next_id r) = true := by
            simp [hasType, mkOrder, hty]
          rw [if_neg hpt]
        · rw [ihs]
          simp only [addedBook, hty, mkOrders, List.filter_cons]
          have hpt : hasType OrderType.Sell (mkOrder b.next_id r) = true := by
            simp [hasType, mkOrder, hty]
          rw [if_pos hpt, ← hty]
          simp [List.append_assoc]
        · rw [ihn, addedBook_next_id]
          simp only [List.length_cons]
          omega

/-- Characterization of any book reachable from new by a successful run:
its partitions are exactly the side-filtered list of the created orders
(ids 1, 2, ... in submission order) and its counter is one past the last id. -/
theorem run_new_eq {rs : List Req} {book : OrderBook}
    (h : runOpt OrderBook.new rs = some book) :
    book.buy_orders = (mkOrders 1 rs).filter (hasType OrderType.Buy)
    ∧ book.sell_orders = (mkOrders 1 rs).filter (hasType OrderType.Sell)
    ∧ book.next_id = rs.length + 1 := by
  obtain ⟨hb, hs, hn⟩ := runOpt_some_eq rs OrderBook.new book h
  refine ⟨by simpa [OrderBook.new] using hb, by simpa [OrderBook.new] using hs, ?_⟩
  rw [hn]
  simp [OrderBook.new]
  omega

theorem runOpt_cons_some {b b1 : OrderBook} {r : Req} {rs : List Req}
    (h : b.add_order r.ty r.amount r.price = some b1) :
    runOpt b (r :: rs) = runOpt b1 rs := by
  simp only [runOpt]
  rw [h]

theorem runOpt_cons_none {b : OrderBook} {r : Req} {rs : List Req}
    (h : b.add_order r.ty r.amount r.price = none) :
    runOpt b (r :: rs) = none := by
  simp only [runOpt]
  rw [h]

theorem runIds_cons_some {b b1 : OrderBook} {r : Req} {rs : List Req}
    (h : b.add_order r.ty r.amount r.price = some b1) :
    runIds b (r :: rs) = (runIds b1 rs).map (fun p => (p.1, b.next_id :: p.2)) := by
  simp only [runIds]
  rw [h]

theorem find_both_some {l : List Order} {o0 : Order} {id : Nat}
    (hmem : o0 ∈ l) (hid : o0.id = id)
    (huniq : ∀ x ∈ l, x.id = id → x = o0) :
    ((l.filter (hasType OrderType.Buy)).find? (fun o => o.id == id) = some o0
       ∧ o0.order_type = OrderType.Buy)
    ∨ ((l.filter (hasType OrderType.Buy)).find? (fun o => o.id == id) = none
       ∧ (l.filter (hasType OrderType.Sell)).find? (fun o => o.id == id) = some o0
       ∧ o0.order_type = OrderType.Sell) := by
  cases hty : o0.order_type
  · left
    refine ⟨?_, rfl⟩
    apply find?_eq_some_of_unique (List.mem_filter.mpr ⟨hmem, by simp [hasType, hty]⟩)
      (by simp [hid])
    intro x hx hpx
    exact huniq x (List.mem_filter.mp hx).1 (by simpa using hpx)
  · right
    refine ⟨?_, ?_, rfl⟩
    · apply find?_eq_none_of_all
      intro x hx hpx
      obtain ⟨hx1, hx2⟩ := List.mem_filter.mp hx
      have hxeq := huniq x hx1 (by simpa using hpx)
      have hx3 : o0.order_type = OrderType.Buy := by
        rw [hxeq] at hx2
        simpa [hasType] using hx2
      rw [hty] at hx3
      cases hx3
    · apply find?_eq_some_of_unique (List.mem_filter.mpr ⟨hmem, by simp [hasType, hty]⟩)
        (by simp [hid])
      intro x hx hpx
      exact huniq x (List.mem_filter.mp hx).1 (by simpa using hpx)

theorem find_run_some {rs : List Req} {book : OrderBook}
    (h : runOpt OrderBook.new rs = some book)
    {id : Nat} (h1 : 1 ≤ id) (h2 : id ≤ rs.length) :
    book.find_order_by_id id = some (mkOrder id (rs.get ⟨id - 1, by omega⟩)) := by
  obtain ⟨hb, hs, _⟩ := run_new_eq h
  have hilt : id - 1 < rs.length := by omega
  have hmem : mkOrder id (rs.get ⟨id - 1, hilt⟩) ∈ mkOrders 1 rs := by
    have hg := mkOrders_mem_of_get rs 1 ⟨id - 1, hilt⟩
    have harith : 1 + (id - 1) = id := by omega
    rwa [harith] at hg
  have huniq : ∀ x ∈ mkOrders 1 rs, x.id = id → x = mkOrder id (rs.get ⟨id - 1, hilt⟩) := by
    intro x hx hxid
    exact mkOrders_id_inj rs 1 x _ hx hmem hxid
  unfold OrderBook.find_order_by_id
  rw [hb, hs]
  rcases @find_both_some (mkOrders 1 rs) (mkOrder id (rs.get ⟨id - 1, hilt⟩)) id hmem rfl huniq
    with ⟨hf, _⟩ | ⟨hfn, hf, _⟩
  · rw [hf]
  · rw [hfn, hf]

theorem find_run_none {rs : List Req} {book : OrderBook}
    (h : runOpt OrderBook.new rs = some book)
    {id : Nat} (hid : id = 0 ∨ rs.length < id) :
    book.find_order_by_id id = none := by
  obtain ⟨hb, hs, _⟩ := run_new_eq h
  have hall : ∀ x ∈ mkOrders 1 rs, ¬ ((fun o => o.id == id) x = true) := by
    intro x hx hpx
    obtain ⟨hlo, hhi⟩ := mkOrders_id_bounds rs 1 x hx
    have hxi : x.id = id := by simpa using hpx
    omega
  unfold OrderBook.find_order_by_id
  rw [hb, hs]
  rw [find?_eq_none_of_all (fun x hx => hall x (List.mem_filter.mp hx).1)]
  exact find?_eq_none_of_all (fun x hx => hall x (List.mem_filter.mp hx).1)

theorem filter_hasType_cons_eq {ty : OrderType} {o : Order} (l : List Order)
    (h : o.order_type = ty) :
    (o :: l).filter (hasType ty) = o :: l.filter (hasType ty) := by
  rw [List.filter_cons, if_pos (by simp [hasType, h])]

theorem filter_hasType_cons_ne {ty : OrderType} {o : Order} (l : List Order)
    (h : ¬ o.order_type = ty) :
    (o :: l).filter (hasType ty) = l.filter (hasType ty) := by
  rw [List.filter_cons, if_neg (by simp [hasType, h])]

theorem filter_partition_length : ∀ l : List Order,
    (l.filter (hasType OrderType.Buy)).length + (l.filter (hasType OrderType.Sell)).length
      = l.length := by
  intro l
  induction l with
  | nil => rfl
  | cons o l ih =>
    cases hty : o.order_type
    · rw [filter_hasType_cons_eq l hty,
        filter_hasType_cons_ne l (by rw [hty]; intro hc; cases hc)]
      simp only [List.length_cons]
      omega
    · rw [filter_hasType_cons_ne l (by rw [hty]; intro hc; cases hc),
        filter_hasType_cons_eq l hty]
      simp only [List.length_cons]
      omega

theorem idRange_length : ∀ (n s : Nat), (idRange s n).length = n
  | 0, _ => rfl
  | n + 1, s => by simp [idRange, idRange_length n (s + 1)]

theorem mem_idRange : ∀ (n s m : Nat), m ∈ idRange s n ↔ s ≤ m ∧ m < s + n := by
  intro n
  induction n with
  | zero =>
    intro s m
    simp only [idRange, List.not_mem_nil, false_iff]
    omega
  | succ n ih =>
    intro s m
    simp only [idRange, List.mem_cons, ih (s + 1)]
    omega

theorem idRange_pairwise : ∀ (n s : Nat), (idRange s n).Pairwise (fun a b => a < b) := by
  intro n
  induction n with
  | zero => intro s; exact List.Pairwise.nil
  | succ n ih =>
    intro s
    refine List.Pairwise.cons ?_ (ih (s + 1))
    intro m hm
    have hmr := (mem_idRange n (s + 1) m).mp hm
    omega

theorem idRange_nodup (n s : Nat) : (idRange s n).Nodup :=
  (idRange_pairwise n s).imp (fun hlt => Nat.ne_of_lt hlt)

theorem runIds_eq (rs : List Req) : ∀ (b b' : OrderBook), runOpt b rs = some b' →
    runIds b rs = some (b', idRange b.next_id rs.length) := by
  induction rs with
  | nil =>
    intro b b' h
    simp only [runOpt, Option.some.injEq] at h
    subst h
    rfl
  | cons r rs ih =>
    intro b b' h
    rcases hadd : b.add_order r.ty r.amount r.price with _ | b1
    · rw [runOpt_cons_none hadd] at h; cases h
    · rw [runOpt_cons_some hadd] at h
      obtain ⟨hlt, hb1⟩ := add_order_some hadd
      have hnext : b1.next_id = b.next_id + 1 := by rw [hb1, addedBook_next_id]
      rw [runIds_cons_some hadd, ih b1 b' h, hnext]
      rfl

theorem runOpt_replicate_ok (r : Req) : ∀ (n : Nat) (b : OrderBook),
    b.next_id + n < U32_LIMIT →
    ∃ b', runOpt b (List.replicate n r) = some b' := by
  intro n
  induction n with
  | zero => intro b _; exact ⟨b, rfl⟩
  | succ n ih =>
    intro b hlt
    have hadd : b.next_id + 1 < U32_LIMIT := by omega
    have haddeq : b.add_order r.ty r.amount r.price
        = some (addedBook b r.ty r.amount r.price) := by
      rw [add_order_def, if_pos hadd]
    rw [List.replicate_succ, runOpt_cons_some haddeq]
    exact ih (addedBook b r.ty r.amount r.price) (by rw [addedBook_next_id]; omega)

theorem runOpt_replicate_fail (r : Req) : ∀ (n : Nat) (b : OrderBook),
    b.next_id + n = U32_LIMIT → 1 ≤ n →
    runOpt b (List.replicate n r) = none := by
  intro n
  induction n with
  | zero => intro b _ hn; exact absurd hn (by omega)
  | succ n ih =>
    intro b heq _
    rcases Nat.eq_zero_or_pos n with hz | hpos
    · subst hz
      have hfail : b.add_order r.ty r.amount r.price = none :=
        add_order_overflow (by omega)
      rw [List.replicate_succ, runOpt_cons_none hfail]
    · have hadd : b.next_id + 1 < U32_LIMIT := by omega
      have haddeq : b.add_order r.ty r.amount r.price
          = some (addedBook b r.ty r.amount r.price) := by
        rw [add_order_def, if_pos hadd]
      rw [List.replicate_succ, runOpt_cons_some haddeq]
      exact ih (addedBook b r.ty r.amount r.price) (by rw [addedBook_next_id]; omega) hpos

theorem foldl_eq_sumNotionalGo : ∀ (l : List Order) (acc : Float),
    (l.map (fun o => o.amount * o.price)).foldl (fun a x => a + x) acc = sumNotionalGo acc l := by
  intro l
  induction l with
  | nil => intro acc; rfl
  | cons o l ih =>
    intro acc
    simp only [List.map_cons, List.foldl_cons, sumNotionalGo]
    exact ih _

theorem runOpt_append (l1 l2 : List Req) : ∀ b : OrderBook,
    runOpt b (l1 ++ l2) = match runOpt b l1 with
      | some b1 => runOpt b1 l2
      | none => none := by
  induction l1 with
  | nil => intro b; rfl
  | cons r l1 ih =>
    intro b
    rcases hadd : b.add_order r.ty r.amount r.price with _ | b1
    · rw [List.cons_append, runOpt_cons_none hadd, runOpt_cons_none hadd]
    · rw [List.cons_append, runOpt_cons_some hadd, runOpt_cons_some hadd, ih b1]

theorem runIds_fst (rs : List Req) : ∀ (b b' : OrderBook) (ids : List Nat),
    runIds b rs = some (b', ids) → runOpt b rs = some b' := by
  induction rs with
  | nil =>
    intro b b' ids h
    simp only [runIds, Option.some.injEq, Prod.mk.injEq] at h
    rw [runOpt, h.1]
  | cons r rs ih =>
    intro b b' ids h
    rcases hadd : b.add_order r.ty r.amount r.price with _ | b1
    · rw [show runIds b (r :: rs) = none from by simp only [runIds]; rw [hadd]] at h
      cases h
    · rw [runIds_cons_some hadd] at h
      rcases hmap : runIds b1 rs with _ | p
      · rw [hmap] at h; cases h
      · rcases p with ⟨pb, pids⟩
        rw [hmap] at h
        simp only [Option.map_some', Option.some.injEq, Prod.mk.injEq] at h
        rw [runOpt_cons_some hadd]
        rw [h.1] at hmap
        exact ih b1 b' pids hmap

theorem get_append_last {α : Type} : ∀ (l : List α) (a : α) (h : l.length < (l ++ [a]).length),
    (l ++ [a]).get ⟨l.length, h⟩ = a := by
  intro l
  induction l with
  | nil => intro a h; rfl
  | cons x l ih => intro a h; exact ih a (by simp)

/-- Claim C1, counterexample: the claim says add_order returns the identifier
it assigned, but the Rust function has no return value.  Two successive
submissions on the same registry assign the distinct identifiers 1 and 2
(visible in the stored orders), yet the value returned by both calls is the
same unit value, so the return value of add_order cannot be the assigned
identifier. -/
theorem C1_counterexample :
    OrderBook.add_order OrderBook.new OrderType.Buy 100.0 50.25
        = some ⟨[⟨1, OrderType.Buy, 100.0, 50.25⟩], [], 2⟩
    ∧ (⟨[⟨1, OrderType.Buy, 100.0, 50.25⟩], [], 2⟩ : OrderBook).add_order OrderType.Buy 200.0 49.80
        = some ⟨[⟨1, OrderType.Buy, 100.0, 50.25⟩, ⟨2, OrderType.Buy, 200.0, 49.80⟩], [], 3⟩
    ∧ OrderBook.add_order_ret OrderBook.new OrderType.Buy 100.0 50.25
        = OrderBook.add_order_ret ⟨[⟨1, OrderType.Buy, 100.0, 50.25⟩], [], 2⟩ OrderType.Buy 200.0 49.80
    ∧ (1 : Nat) ≠ 2 :=
  ⟨rfl, rfl, rfl, by omega⟩

/-- Claim C1 as amended: add_order returns no value; the identifier it
assigns to the newly created Order is the pre-state counter value, which is
strictly greater than the identifier of every Order previously stored in
the registry, and the new Order is stored under exactly that identifier
with the submitted fields. -/
theorem C1_amended_assigned_id (rs : List Req) (book book' : OrderBook) (r : Req)
    (hrun : runOpt OrderBook.new rs = some book)
    (hadd : book.add_order r.ty r.amount r.price = some book') :
    (∀ o ∈ book.buy_orders, o.id < book.next_id)
    ∧ (∀ o ∈ book.sell_orders, o.id < book.next_id)
    ∧ book'.find_order_by_id book.next_id = some (mkOrder book.next_id r) := by
  obtain ⟨hb, hs, hn⟩ := run_new_eq hrun
  have hbound : ∀ o ∈ mkOrders 1 rs, o.id < book.next_id := by
    intro o ho
    have hbb := mkOrders_id_bounds rs 1 o ho
    omega
  have hrun' : runOpt OrderBook.new (rs ++ [r]) = some book' := by
    rw [runOpt_append, hrun]
    show runOpt book [r] = some book'
    rw [runOpt_cons_some hadd]
    rfl
  have h1g : 1 ≤ book.next_id := by omega
  have h2g : book.next_id ≤ (rs ++ [r]).length := by
    rw [List.length_append, List.length_cons, List.length_nil]
    omega
  have hf := find_run_some hrun' h1g h2g
  refine ⟨?_, ?_, ?_⟩
  · intro o ho
    rw [hb] at ho
    exact hbound o (List.mem_filter.mp ho).1
  · intro o ho
    rw [hs] at ho
    exact hbound o (List.mem_filter.mp ho).1
  · rw [hf]
    have hidx : book.next_id - 1 = rs.length := by omega
    have hpf : book.next_id - 1 < (rs ++ [r]).length := by
      rw [List.length_append, List.length_cons, List.length_nil]
      omega
    have hget : (rs ++ [r]).get ⟨book.next_id - 1, hpf⟩ = r := by
      have hg := get_append_last rs r (by simp)
      have : (⟨book.next_id - 1, hpf⟩ : Fin (rs ++ [r]).length) = ⟨rs.length, by simp⟩ :=
        Fin.ext hidx
      rw [this]
      exact hg
    rw [hget]

/-- Claim C2: on every registry reachable from new by successful
submissions, find_order_by_id of the identifier assigned to the i-th
submission returns an Order whose fields exactly equal that submission's
arguments, and find_order_by_id of any identifier never assigned (0, or
beyond the number of submissions) returns none. -/
theorem C2_lookup_correct (rs : List Req) (book : OrderBook)
    (h : runOpt OrderBook.new rs = some book) :
    (∀ i : Fin rs.length,
        book.find_order_by_id (i.1 + 1)
          = some ⟨i.1 + 1, (rs.get i).ty, (rs.get i).amount, (rs.get i).price⟩)
    ∧ (∀ id : Nat, id = 0 ∨ rs.length < id → book.find_order_by_id id = none) := by
  constructor
  · intro i
    have h1 : 1 ≤ i.1 + 1 := by omega
    have h2 : i.1 + 1 ≤ rs.length := i.2
    exact find_run_some h h1 h2
  · intro id hid
    exact find_run_none h hid

/-- Claim C3: the identifiers assigned by any successfully completed
sequence of N submissions into a fresh registry are exactly 1, 2, ..., N:
N distinct values, strictly increasing in call order, starting at 1
(and hence never reused). -/
theorem C3_monotonic_unique_ids (rs : List Req) (book : OrderBook) (ids : List Nat)
    (h : runIds OrderBook.new rs = some (book, ids)) :
    ids = idRange 1 rs.length
    ∧ ids.length = rs.length
    ∧ ids.Nodup
    ∧ ids.Pairwise (fun a b => a < b)
    ∧ (0 < rs.length → ids.head? = some 1) := by
  have hrun : runOpt OrderBook.new rs = some book := runIds_fst rs OrderBook.new book ids h
  have hids := runIds_eq rs OrderBook.new book hrun
  rw [h] at hids
  have hids' : ids = idRange 1 rs.length := by
    have := (Option.some.injEq _ _).mp hids
    exact (Prod.mk.injEq _ _ _ _).mp this.symm |>.2.symm
  subst hids'
  refine ⟨rfl, idRange_length rs.length 1, idRange_nodup rs.length 1,
    idRange_pairwise rs.length 1, ?_⟩
  intro hpos
  rcases hlen : rs.length with _ | n
  · omega
  · rfl

/-- Claim C4, counterexample: the submission operation is not total.  The
counter is a u32 and add_order increments it with checked arithmetic;
after 4294967294 successful submissions the counter stands at
u32::MAX = 4294967295 (that state is reachable, first conjunct), and the
next submission overflows the counter increment and fails (second
conjunct). -/
theorem C4_counterexample :
    (runOpt OrderBook.new (List.replicate 4294967294 ⟨OrderType.Buy, 100.0, 50.25⟩)).isSome = true
    ∧ runOpt OrderBook.new (List.replicate 4294967295 ⟨OrderType.Buy, 100.0, 50.25⟩) = none := by
  constructor
  · obtain ⟨b', hb'⟩ := runOpt_replicate_ok ⟨OrderType.Buy, 100.0, 50.25⟩ 4294967294
      OrderBook.new (by show 1 + 4294967294 < 4294967296; omega)
    rw [hb']
    rfl
  · exact runOpt_replicate_fail ⟨OrderType.Buy, 100.0, 50.25⟩ 4294967295 OrderBook.new
      (by show 1 + 4294967295 = 4294967296; omega) (by omega)

/-- Claim C4 as amended: every query operation is total, and add_order is
total except for counter overflow: on any registry reached from new by
fewer than 4294967294 successful submissions, add_order succeeds for every
input. -/
theorem C4_amended_totality (rs : List Req) (book : OrderBook) (r : Req)
    (hrun : runOpt OrderBook.new rs = some book)
    (hlen : rs.length < 4294967294) :
    (book.add_order r.ty r.amount r.price).isSome = true := by
  obtain ⟨_, _, hn⟩ := run_new_eq hrun
  apply add_order_isSome
  show book.next_id + 1 < 4294967296
  omega

/-- Claim C5: get_total_value_by_type equals the sum of amount * price over
exactly the Order records stored on the given side, accumulated in
submission order (sumNotional walks the side's list in storage order,
which is submission order), and it returns 0.0 when the side has no
records; it reads the state without modifying it. -/
theorem C5_total_notional (b : OrderBook) (ty : OrderType) :
    b.get_total_value_by_type ty = sumNotional (b.get_orders_by_type ty)
    ∧ (b.get_orders_by_type ty = [] → b.get_total_value_by_type ty = 0.0) := by
  constructor
  · exact foldl_eq_sumNotionalGo (b.get_orders_by_type ty) 0.0
  · intro hempty
    show ((b.get_orders_by_type ty).map (fun o => o.amount * o.price)).foldl
      (fun a x => a + x) 0.0 = 0.0
    rw [hempty]
    rfl

/-- Claim C6: total_orders always equals the length of the buy-side view
plus the length of the sell-side view; both are pure reads of the state. -/
theorem C6_partition_completeness (b : OrderBook) :
    b.total_orders = (b.get_orders_by_type OrderType.Buy).length
      + (b.get_orders_by_type OrderType.Sell).length :=
  rfl

/-- Claim C7: side isolation on every reachable registry.  An Order created
by a Buy submission is stored in the buy-side view and no sell-side Order
carries its identifier; symmetrically for Sell; and no identifier appears
in both side-partitions, so every stored Order lies in exactly one of the
two views. -/
theorem C7_side_isolation (rs : List Req) (book : OrderBook)
    (h : runOpt OrderBook.new rs = some book) :
    (∀ i : Fin rs.length, (rs.get i).ty = OrderType.Buy →
        mkOrder (i.1 + 1) (rs.get i) ∈ book.get_orders_by_type OrderType.Buy
        ∧ ∀ o ∈ book.get_orders_by_type OrderType.Sell, o.id ≠ i.1 + 1)
    ∧ (∀ i : Fin rs.length, (rs.get i).ty = OrderType.Sell →
        mkOrder (i.1 + 1) (rs.get i) ∈ book.get_orders_by_type OrderType.Sell
        ∧ ∀ o ∈ book.get_orders_by_type OrderType.Buy, o.id ≠ i.1 + 1)
    ∧ (∀ o₁ ∈ book.get_orders_by_type OrderType.Buy,
        ∀ o₂ ∈ book.get_orders_by_type OrderType.Sell, o₁.id ≠ o₂.id) := by
  obtain ⟨hb, hs, _⟩ := run_new_eq h
  have hgb : book.get_orders_by_type OrderType.Buy
      = (mkOrders 1 rs).filter (hasType OrderType.Buy) := hb
  have hgs : book.get_orders_by_type OrderType.Sell
      = (mkOrders 1 rs).filter (hasType OrderType.Sell) := hs
  have hmemk : ∀ i : Fin rs.length, mkOrder (i.1 + 1) (rs.get i) ∈ mkOrders 1 rs := by
    intro i
    have hg := mkOrders_mem_of_get rs 1 i
    rwa [Nat.add_comm 1 i.1] at hg
  refine ⟨?_, ?_, ?_⟩
  · intro i hty
    refine ⟨?_, ?_⟩
    · rw [hgb]
      refine List.mem_filter.mpr ⟨hmemk i, ?_⟩
      show ((rs.get i).ty == OrderType.Buy) = true
      rw [hty]
      rfl
    · intro o ho hoid
      rw [hgs] at ho
      obtain ⟨ho1, ho2⟩ := List.mem_filter.mp ho
      have heq : o = mkOrder (i.1 + 1) (rs.get i) :=
        mkOrders_id_inj rs 1 o _ ho1 (hmemk i) hoid
      rw [heq] at ho2
      have hcon : (rs.get i).ty = OrderType.Sell := eq_of_beq ho2
      rw [hty] at hcon
      cases hcon
  · intro i hty
    refine ⟨?_, ?_⟩
    · rw [hgs]
      refine List.mem_filter.mpr ⟨hmemk i, ?_⟩
      show ((rs.get i).ty == OrderType.Sell) = true
      rw [hty]
      rfl
    · intro o ho hoid
      rw [hgb] at ho
      obtain ⟨ho1, ho2⟩ := List.mem_filter.mp ho
      have heq : o = mkOrder (i.1 + 1) (rs.get i) :=
        mkOrders_id_inj rs 1 o _ ho1 (hmemk i) hoid
      rw [heq] at ho2
      have hcon : (rs.get i).ty = OrderType.Buy := eq_of_beq ho2
      rw [hty] at hcon
      cases hcon
  · intro o₁ h₁ o₂ h₂ hid
    rw [hgb] at h₁
    rw [hgs] at h₂
    obtain ⟨m₁, t₁⟩ := List.mem_filter.mp h₁
    obtain ⟨m₂, t₂⟩ := List.mem_filter.mp h₂
    have heq : o₁ = o₂ := mkOrders_id_inj rs 1 o₁ o₂ m₁ m₂ hid
    rw [heq] at t₁
    have e₁ : o₂.order_type = OrderType.Buy := eq_of_beq t₁
    have e₂ : o₂.order_type = OrderType.Sell := eq_of_beq t₂
    rw [e₁] at e₂
    cases e₂

/-- Claim C8: frame condition of submission.  A successful add_order
produces exactly the pre-state with one new Order (built from the current
counter value and the given fields) appended at the end of the submitted
side's sequence and the counter increased by 1; the opposite side's
sequence is unchanged, and all previously stored Orders survive unchanged
as the prefix of the appended sequence. -/
theorem C8_submit_frame (b b' : OrderBook) (ty : OrderType) (a p : Float)
    (h : b.add_order ty a p = some b') :
    b'.next_id = b.next_id + 1
    ∧ (ty = OrderType.Buy →
        b'.buy_orders = b.buy_orders ++ [⟨b.next_id, ty, a, p⟩]
        ∧ b'.sell_orders = b.sell_orders)
    ∧ (ty = OrderType.Sell →
        b'.sell_orders = b.sell_orders ++ [⟨b.next_id, ty, a, p⟩]
        ∧ b'.buy_orders = b.buy_orders) := by
  obtain ⟨hlt, hbk⟩ := add_order_some h
  subst hbk
  refine ⟨addedBook_next_id b ty a p, ?_, ?_⟩
  · intro hty
    subst hty
    exact ⟨rfl, rfl⟩
  · intro hty
    subst hty
    exact ⟨rfl, rfl⟩

/-- Claim C9: on every reachable registry the counter equals the number of
stored orders plus 1, and the stored identifiers are exactly the contiguous
range 1..total_orders: find_order_by_id hits precisely the identifiers in
that range. -/
theorem C9_contiguous_ids (rs : List Req) (book : OrderBook)
    (h : runOpt OrderBook.new rs = some book) :
    book.next_id = book.total_orders + 1
    ∧ ∀ id : Nat, (book.find_order_by_id id).isSome = true
        ↔ 1 ≤ id ∧ id ≤ book.total_orders := by
  obtain ⟨hb, hs, hn⟩ := run_new_eq h
  have htot : book.total_orders = rs.length := by
    show book.buy_orders.length + book.sell_orders.length = rs.length
    rw [hb, hs]
    rw [← mkOrders_length rs 1]
    exact filter_partition_length _
  constructor
  · rw [hn, htot]
  · intro id
    constructor
    · intro hsome
      rw [htot]
      by_contra hcon
      have hcon' : id = 0 ∨ rs.length < id := by omega
      rw [find_run_none h hcon'] at hsome
      simp at hsome
    · intro hrange
      have h1g : 1 ≤ id := hrange.1
      have h2g : id ≤ rs.length := by
        have := hrange.2
        omega
      rw [find_run_some h h1g h2g]
      rfl

/-- Claim C10: on every reachable registry the side tag stored inside each
Order agrees with the partition holding it: every Order in the buy-side
sequence has order_type Buy and every Order in the sell-side sequence has
order_type Sell. -/
theorem C10_tag_agreement (rs : List Req) (book : OrderBook)
    (h : runOpt OrderBook.new rs = some book) :
    (∀ o ∈ book.buy_orders, o.order_type = OrderType.Buy)
    ∧ (∀ o ∈ book.sell_orders, o.order_type = OrderType.Sell) := by
  obtain ⟨hb, hs, _⟩ := run_new_eq h
  constructor
  · intro o ho
    rw [hb] at ho
    exact eq_of_beq (List.mem_filter.mp ho).2
  · intro o ho
    rw [hs] at ho
    exact eq_of_beq (List.mem_filter.mp ho).2

/-- Witness for C1_amended_assigned_id at the concrete run with no prior
submissions followed by the submission (Buy, 100.0, 50.25). -/
theorem C1_amended_witness :
    (∀ o ∈ OrderBook.new.buy_orders, o.id < OrderBook.new.next_id)
    ∧ (∀ o ∈ OrderBook.new.sell_orders, o.id < OrderBook.new.next_id)
    ∧ OrderBook.find_order_by_id ⟨[⟨1, OrderType.Buy, 100.0, 50.25⟩], [], 2⟩ OrderBook.new.next_id
        = some (mkOrder OrderBook.new.next_id ⟨OrderType.Buy, 100.0, 50.25⟩) :=
  C1_amended_assigned_id [] OrderBook.new ⟨[⟨1, OrderType.Buy, 100.0, 50.25⟩], [], 2⟩
    ⟨OrderType.Buy, 100.0, 50.25⟩ rfl rfl

/-- Witness for C2_lookup_correct at the concrete run of submissions
(Buy, 100.0, 50.25) then (Sell, 75.0, 52.50): the id 2 finds the Sell
order with its submitted fields, the never-assigned id 99 finds nothing. -/
theorem C2_witness :
    OrderBook.find_order_by_id
        ⟨[⟨1, OrderType.Buy, 100.0, 50.25⟩], [⟨2, OrderType.Sell, 75.0, 52.50⟩], 3⟩ 2
      = some ⟨2, OrderType.Sell, 75.0, 52.50⟩
    ∧ OrderBook.find_order_by_id
        ⟨[⟨1, OrderType.Buy, 100.0, 50.25⟩], [⟨2, OrderType.Sell, 75.0, 52.50⟩], 3⟩ 99
      = none := by
  have h := C2_lookup_correct
    [⟨OrderType.Buy, 100.0, 50.25⟩, ⟨OrderType.Sell, 75.0, 52.50⟩]
    ⟨[⟨1, OrderType.Buy, 100.0, 50.25⟩], [⟨2, OrderType.Sell, 75.0, 52.50⟩], 3⟩ rfl
  exact ⟨h.1 ⟨1, by decide⟩, h.2 99 (Or.inr (by decide))⟩

/-- Witness for C3_monotonic_unique_ids at the concrete run of one Buy
submission: the recorded id list is [1]. -/
theorem C3_witness :
    runIds OrderBook.new [⟨OrderType.Buy, 100.0, 50.25⟩]
      = some (⟨[⟨1, OrderType.Buy, 100.0, 50.25⟩], [], 2⟩, [1])
    ∧ [1] = idRange 1 1
    ∧ ([1] : List Nat).Nodup := by
  have h := C3_monotonic_unique_ids [⟨OrderType.Buy, 100.0, 50.25⟩]
    ⟨[⟨1, OrderType.Buy, 100.0, 50.25⟩], [], 2⟩ [1] rfl
  exact ⟨rfl, h.1, h.2.2.1⟩

/-- Witness for C4_amended_totality with the empty prior run: on the fresh
registry a submission succeeds. -/
theorem C4_amended_witness :
    (OrderBook.add_order OrderBook.new OrderType.Buy 100.0 50.25).isSome = true :=
  C4_amended_totality [] OrderBook.new ⟨OrderType.Buy, 100.0, 50.25⟩ rfl (by decide)

/-- Witness for C5_total_notional at the empty book and the Buy side: the
notional total of an empty side evaluates to 0.0. -/
theorem C5_witness :
    OrderBook.get_total_value_by_type OrderBook.new OrderType.Buy
      = sumNotional (OrderBook.new.get_orders_by_type OrderType.Buy)
    ∧ OrderBook.get_total_value_by_type OrderBook.new OrderType.Buy = 0.0 :=
  ⟨(C5_total_notional OrderBook.new OrderType.Buy).1,
   (C5_total_notional OrderBook.new OrderType.Buy).2 rfl⟩

/-- Witness for C7_side_isolation at the concrete run of submissions
(Buy, 100.0, 50.25) then (Sell, 75.0, 52.50): the first (Buy) submission's
order lies in the buy partition and no sell-side order carries id 1. -/
theorem C7_witness :
    mkOrder 1 ⟨OrderType.Buy, 100.0, 50.25⟩
      ∈ OrderBook.get_orders_by_type
          ⟨[⟨1, OrderType.Buy, 100.0, 50.25⟩], [⟨2, OrderType.Sell, 75.0, 52.50⟩], 3⟩
          OrderType.Buy
    ∧ ∀ o ∈ OrderBook.get_orders_by_type
          ⟨[⟨1, OrderType.Buy, 100.0, 50.25⟩], [⟨2, OrderType.Sell, 75.0, 52.50⟩], 3⟩
          OrderType.Sell, o.id ≠ 1 := by
  have h := C7_side_isolation
    [⟨OrderType.Buy, 100.0, 50.25⟩, ⟨OrderType.Sell, 75.0, 52.50⟩]
    ⟨[⟨1, OrderType.Buy, 100.0, 50.25⟩], [⟨2, OrderType.Sell, 75.0, 52.50⟩], 3⟩ rfl
  exact h.1 ⟨0, by decide⟩ rfl

/-- Witness for C8_submit_frame at the concrete submission
(Sell, 75.0, 52.50) on the fresh book. -/
theorem C8_witness :
    (2 : Nat) = OrderBook.new.next_id + 1
    ∧ ([⟨1, OrderType.Sell, 75.0, 52.50⟩] : List Order)
        = OrderBook.new.sell_orders ++ [⟨OrderBook.new.next_id, OrderType.Sell, 75.0, 52.50⟩]
    ∧ ([] : List Order) = OrderBook.new.buy_orders := by
  have h := C8_submit_frame OrderBook.new ⟨[], [⟨1, OrderType.Sell, 75.0, 52.50⟩], 2⟩
    OrderType.Sell 75.0 52.50 rfl
  have h3 := h.2.2 rfl
  exact ⟨h.1, h3.1, h3.2⟩

/-- Witness for C9_contiguous_ids at the concrete run of one Buy
submission: the counter is the order count plus one and id 1 is stored. -/
theorem C9_witness :
    (⟨[⟨1, OrderType.Buy, 100.0, 50.25⟩], [], 2⟩ : OrderBook).next_id
      = (⟨[⟨1, OrderType.Buy, 100.0, 50.25⟩], [], 2⟩ : OrderBook).total_orders + 1
    ∧ (OrderBook.find_order_by_id ⟨[⟨1, OrderType.Buy, 100.0, 50.25⟩], [], 2⟩ 1).isSome
      = true := by
  have h := C9_contiguous_ids [⟨OrderType.Buy, 100.0, 50.25⟩]
    ⟨[⟨1, OrderType.Buy, 100.0, 50.25⟩], [], 2⟩ rfl
  exact ⟨h.1, (h.2 1).mpr ⟨by omega, by decide⟩⟩

/-- Witness for C10_tag_agreement at the concrete run of one Buy
submission. -/
theorem C10_witness :
    (∀ o ∈ (⟨[⟨1, OrderType.Buy, 100.0, 50.25⟩], [], 2⟩ : OrderBook).buy_orders,
        o.order_type = OrderType.Buy)
    ∧ (∀ o ∈ (⟨[⟨1, OrderType.Buy, 100.0, 50.25⟩], [], 2⟩ : OrderBook).sell_orders,
        o.order_type = OrderType.Sell) :=
  C10_tag_agreement [⟨OrderType.Buy, 100.0, 50.25⟩]
    ⟨[⟨1, OrderType.Buy, 100.0, 50.25⟩], [], 2⟩ rfl

end TradeBook
